import Mathlib

/-!
Verification of the k-means clustering routine (`KMeans` in
`src/clustering/k_means.py`), a shallow embedding in Lean 4.

Pixels are modelled as vectors of rational numbers (`Point`); the numpy
floating-point arithmetic is idealised as exact rational arithmetic. A
numpy `NaN` vector (the mean of an empty slice) is modelled as `none` of
`Option Point`, and a `NaN` distance as `none` of `Option ℚ`.

`np.linalg.norm` takes a square root before `np.argmin` compares the
distances; since the square root is strictly monotone, the index of the
first minimum of the true Euclidean distances coincides with the index of
the first minimum of the squared distances, so the embedding stores squared
distances (`sqDist`, exact in ℚ) and the theorems about "nearest in
Euclidean distance" are stated through `Real.sqrt` of that value.

The ambient randomness of `np.random.choice` is modelled by passing the
drawn index list `draw` as an explicit argument: fixing the process-wide
random seed fixes this draw. The contract of
`np.random.choice(n, K, replace=False)` (on success the draw has length K,
has no duplicates, and every index is `< n`) appears as hypotheses of the
theorems that need it.
-/

/-- A point: one pixel's color vector (row of the `(w*h, c)` image array). -/
abbrev Point := List ℚ

/-- Squared Euclidean distance between two points, the square of the value
`np.linalg.norm(img[i] - means, axis=1)` computes for one row. -/
def sqDist (p q : Point) : ℚ :=
  (List.zipWith (fun a b => (a - b) ^ 2) p q).sum

/-- Distance from a point to a possibly-NaN centroid row: a `NaN` centroid
gives a `NaN` distance (`none`), as in numpy. -/
def distTo (p : Point) (m : Option Point) : Option ℚ :=
  m.map (fun v => sqDist p v)

/-- Index of the first minimum of a list, `none` on the empty list
(`np.argmin` raises `ValueError` on an empty sequence). On ties the
lowest index wins, as documented for `np.argmin`. -/
def argminQ : List ℚ → Option Nat
  | [] => none
  | x :: xs =>
    match argminQ xs with
    | none => some 0
    | some j => if xs.getD j 0 < x then some (j + 1) else some 0

/-- `np.argmin` over a list that may contain NaN (`none`) entries: numpy's
minimum reduction propagates NaN, so the result is the index of the first
NaN when one is present, and the first minimum otherwise. -/
def npArgmin (l : List (Option ℚ)) : Option Nat :=
  if l.all (fun o => o.isSome) then argminQ (l.map (fun o => o.getD 0))
  else some (l.findIdx (fun o => o.isNone))

/-- `KMeans._get_nearest_means`: for each pixel, the index of the nearest
centroid. The Python loop writes `labels[i] = np.argmin(dists)` pixel by
pixel; a `ValueError` from `np.argmin` (empty centroid list) aborts the
whole call, modelled by `none`. -/
def getNearestMeans (img : List Point) (means : List (Option Point)) :
    Option (List Nat) :=
  match img with
  | [] => some []
  | p :: ps =>
    match npArgmin (means.map (fun m => distTo p m)),
          getNearestMeans ps means with
    | some j, some ls => some (j :: ls)
    | _, _ => none

/-- Total form of the assignment step, used to state what
`getNearestMeans` returns when it succeeds. -/
def assignTotal (img : List Point) (means : List (Option Point)) : List Nat :=
  img.map (fun p => (npArgmin (means.map (fun m => distTo p m))).getD 0)

/-- Boolean-mask selection `img[labels == k]`: the pixels whose label is
`k`, in input order. -/
def maskSelect (img : List Point) (labels : List Nat) (k : Nat) : List Point :=
  ((List.zip img labels).filter (fun pl => pl.2 == k)).map (fun pl => pl.1)

/-- `.mean(axis=0)` over a list of `d`-dimensional points: the
coordinatewise arithmetic mean; on an empty slice numpy produces a NaN
vector, modelled as `none`. -/
def npMean (d : Nat) (ps : List Point) : Option Point :=
  if ps = [] then none
  else some ((List.range d).map
    (fun j => (ps.map (fun p => p.getD j 0)).sum / (ps.length : ℚ)))

/-- `KMeans._get_centroids`: row `k` is the mean of the pixels labelled
`k` (`np.array([img[labels == k].mean(axis=0) for k in range(K)])`). -/
def getCentroids (d K : Nat) (img : List Point) (labels : List Nat) :
    List (Option Point) :=
  (List.range K).map (fun k => npMean d (maskSelect img labels k))

/-- The errors the `cluster` pipeline can raise. -/
inductive KMError where
  /-- `ValueError` from `np.random.choice(n, K, replace=False)`:
  `K` negative or larger than the population. -/
  | choiceValueError : KMError
  /-- `ValueError` from `np.argmin` on an empty distance list (`K = 0`). -/
  | argminValueError : KMError
  /-- `UnboundLocalError` at `labels.astype(np.uint8)` when the loop body
  never ran (`iterations < 1`). -/
  | unboundLocalLabels : KMError
deriving DecidableEq

/-- `np.random.choice(n, K, replace=False)` with the random draw supplied
as `draw`: raises `ValueError` when `K < 0` or `K > n`, otherwise returns
the drawn indices. -/
def npChoiceNoReplace (n : Nat) (K : Int) (draw : List Nat) :
    Except KMError (List Nat) :=
  if K < 0 ∨ (n : Int) < K then .error .choiceValueError else .ok draw

/-- `KMeans._init_means`: the pixels at the randomly chosen indices,
`img[np.random.choice(len(img), K, replace=False), :]`. -/
def initMeans (img : List Point) (K : Int) (draw : List Nat) :
    Except KMError (List (Option Point)) :=
  (npChoiceNoReplace img.length K draw).map
    (fun idxs => idxs.map (fun i => some (img.getD i [])))

/-- One refinement round as the claims describe it: Assign against the
current centroids, then Recompute from the labels just produced. -/
def kmRound (d K : Nat) (img : List Point) (c : List (Option Point)) :
    List (Option Point) :=
  getCentroids d K img (assignTotal img c)

/-- The `for _ in range(iterations)` loop of `KMeans.cluster`: each pass
assigns labels against the current centroids, then replaces the centroids
with the recomputed ones; `labels` carries the last assignment out of the
loop (`none` while still unbound). -/
def clusterLoop (d K : Nat) (img : List Point) :
    Nat → List (Option Point) → Option (List Nat) →
    Except KMError (List (Option Point) × Option (List Nat))
  | 0, centroids, labels => .ok (centroids, labels)
  | t + 1, centroids, _ =>
    match getNearestMeans img centroids with
    | none => .error .argminValueError
    | some labels =>
      clusterLoop d K img t (getCentroids d K img labels) (some labels)

/-- Reconstruction line `centroids[labels.astype(np.uint8), :]`: the label
array (stored as floats) is cast to `uint8`, i.e. reduced mod 256, before
indexing the centroid array. -/
def reconstruct (centroids : List (Option Point)) (labels : List Nat) :
    List (Option Point) :=
  labels.map (fun a => centroids.getD (a % 256) none)

/-- Everything `KMeans.cluster` hands to the surrounding script: the final
centroids, the labels of the last Assign, and the reconstructed image. -/
structure ClusterResult where
  centroids : List (Option Point)
  labels : List Nat
  reconstructed : List (Option Point)
deriving DecidableEq

/-- `KMeans.cluster` after image loading: initialise the means, run the
refinement loop, then reconstruct the image from the final centroids and
the labels of the last Assign. `d` is the channel count from the image
shape, `draw` the random index draw of `_init_means`. -/
def cluster (d : Nat) (img : List Point) (K : Int) (iters : Int)
    (draw : List Nat) : Except KMError ClusterResult :=
  match initMeans img K draw with
  | .error e => .error e
  | .ok c0 =>
    match clusterLoop d K.toNat img iters.toNat c0 none with
    | .error e => .error e
    | .ok (_, none) => .error .unboundLocalLabels
    | .ok (centroids, some labels) =>
      .ok ⟨centroids, labels, reconstruct centroids labels⟩

/-- How many Assign steps the loop enters before stopping (an Assign that
raises still counts as entered). Mirrors the control flow of
`clusterLoop`. -/
def numAssignStartsLoop (d K : Nat) (img : List Point) :
    Nat → List (Option Point) → Nat
  | 0, _ => 0
  | t + 1, centroids =>
    match getNearestMeans img centroids with
    | none => 1
    | some labels =>
      1 + numAssignStartsLoop d K img t (getCentroids d K img labels)

/-- How many Assign steps a whole `cluster` call enters. -/
def numAssignStarts (d : Nat) (img : List Point) (K : Int) (iters : Int)
    (draw : List Nat) : Nat :=
  match initMeans img K draw with
  | .error _ => 0
  | .ok c0 => numAssignStartsLoop d K.toNat img iters.toNat c0

/-- The centroids after `t` full refinement rounds (Assign then Recompute,
each round fed the centroids the previous round recomputed), starting from
the centroids drawn by `_init_means`. -/
def roundCentroids (d : Nat) (img : List Point) (K : Int) (draw : List Nat)
    (t : Nat) : List (Option Point) :=
  (kmRound d K.toNat img)^[t] (draw.map (fun i => some (img.getD i [])))

/-! Basic facts about the argmin of a list. -/

theorem argminQ_eq_none_iff (l : List ℚ) : argminQ l = none ↔ l = [] := by
  cases l with
  | nil => simp [argminQ]
  | cons x xs =>
    cases h : argminQ xs with
    | none => simp [argminQ, h]
    | some j =>
      simp only [argminQ, h]
      split <;> simp

theorem argminQ_lt_length : ∀ {l : List ℚ} {j : Nat},
    argminQ l = some j → j < l.length := by
  intro l
  induction l with
  | nil => intro j h; simp [argminQ] at h
  | cons x xs ih =>
    intro j h
    cases hx : argminQ xs with
    | none =>
      simp only [argminQ, hx] at h
      cases h
      simp
    | some j' =>
      have hj' := ih hx
      simp only [argminQ, hx] at h
      by_cases hc : xs.getD j' 0 < x
      · rw [if_pos hc] at h
        cases h
        simpa using Nat.succ_lt_succ hj'
      · rw [if_neg hc] at h
        cases h
        simp

theorem argminQ_le : ∀ {l : List ℚ} {j : Nat}, argminQ l = some j →
    ∀ k, k < l.length → l.getD j 0 ≤ l.getD k 0 := by
  intro l
  induction l with
  | nil => intro j h; simp [argminQ] at h
  | cons x xs ih =>
    intro j h k hk
    cases hx : argminQ xs with
    | none =>
      have hnil : xs = [] := (argminQ_eq_none_iff xs).mp hx
      subst hnil
      simp only [argminQ] at h
      cases h
      have hk0 : k = 0 := by
        simpa using Nat.lt_one_iff.mp (by simpa using hk)
      subst hk0
      simp
    | some j' =>
      have hj' := argminQ_lt_length hx
      have hle := ih hx
      simp only [argminQ, hx] at h
      by_cases hc : xs.getD j' 0 < x
      · rw [if_pos hc] at h
        cases h
        rw [List.getD_cons_succ]
        cases k with
        | zero => simpa using le_of_lt hc
        | succ k' =>
          rw [List.getD_cons_succ]
          exact hle k' (by simpa using Nat.lt_of_succ_lt_succ hk)
      · rw [if_neg hc] at h
        cases h
        rw [List.getD_cons_zero]
        cases k with
        | zero => simp
        | succ k' =>
          rw [List.getD_cons_succ]
          exact le_trans (le_of_not_lt hc)
            (hle k' (by simpa using Nat.lt_of_succ_lt_succ hk))

theorem argminQ_first : ∀ {l : List ℚ} {j : Nat}, argminQ l = some j →
    ∀ k, k < j → l.getD j 0 < l.getD k 0 := by
  intro l
  induction l with
  | nil => intro j h; simp [argminQ] at h
  | cons x xs ih =>
    intro j h k hk
    cases hx : argminQ xs with
    | none =>
      simp only [argminQ, hx] at h
      cases h
      exact absurd hk (Nat.not_lt_zero k)
    | some j' =>
      have hfirst := ih hx
      simp only [argminQ, hx] at h
      by_cases hc : xs.getD j' 0 < x
      · rw [if_pos hc] at h
        cases h
        rw [List.getD_cons_succ]
        cases k with
        | zero => simpa using hc
        | succ k' =>
          rw [List.getD_cons_succ]
          exact hfirst k' (Nat.lt_of_succ_lt_succ hk)
      · rw [if_neg hc] at h
        cases h
        exact absurd hk (Nat.not_lt_zero k)

/-! Facts about the NaN-aware argmin and the assignment step. -/

theorem npArgmin_map_some {α : Type} (f : α → ℚ) (l : List α) :
    npArgmin (l.map (fun a => some (f a))) = argminQ (l.map f) := by
  unfold npArgmin
  rw [if_pos]
  · rw [List.map_map]
    rfl
  · rw [List.all_eq_true]
    intro o ho
    rw [List.mem_map] at ho
    obtain ⟨a, _, rfl⟩ := ho
    rfl

theorem npArgmin_isSome {l : List (Option ℚ)} (h : l ≠ []) :
    (npArgmin l).isSome := by
  unfold npArgmin
  split
  · cases hq : argminQ (l.map fun o => o.getD 0) with
    | none =>
      exfalso
      have := (argminQ_eq_none_iff _).mp hq
      exact h (by simpa using this)
    | some j => simp [hq]
  · simp

theorem npArgmin_lt_length {l : List (Option ℚ)} {j : Nat}
    (h : npArgmin l = some j) : j < l.length := by
  unfold npArgmin at h
  split at h
  · have := argminQ_lt_length h
    simpa using this
  · rename_i hall
    cases h
    apply List.findIdx_lt_length_of_exists
    rw [List.all_eq_true] at hall
    push_neg at hall
    obtain ⟨o, ho, ho2⟩ := hall
    refine ⟨o, ho, ?_⟩
    cases o with
    | none => rfl
    | some v => exact absurd rfl ho2

theorem getNearestMeans_eq_some (img : List Point)
    (means : List (Option Point)) (hm : means ≠ []) :
    getNearestMeans img means = some (assignTotal img means) := by
  induction img with
  | nil => simp [getNearestMeans, assignTotal]
  | cons p ps ih =>
    have hne : means.map (fun m => distTo p m) ≠ [] := by
      simpa using hm
    obtain ⟨j, hj⟩ :=
      Option.isSome_iff_exists.mp (npArgmin_isSome hne)
    rw [getNearestMeans, hj, ih]
    simp [assignTotal, hj]

theorem assignTotal_length (img : List Point) (means : List (Option Point)) :
    (assignTotal img means).length = img.length := by
  simp [assignTotal]

theorem assignTotal_getD (img : List Point) (means : List (Option Point))
    (i : Nat) (hi : i < img.length) :
    (assignTotal img means).getD i 0 =
      (npArgmin (means.map (fun m => distTo (img.getD i []) m))).getD 0 := by
  unfold assignTotal
  rw [List.getD_eq_getElem _ _ (by simpa using hi), List.getElem_map,
    List.getD_eq_getElem _ _ hi]

/-! Facts about the squared Euclidean distance. -/

theorem sqDist_nonneg : ∀ p q : Point, 0 ≤ sqDist p q
  | [], _ => by simp [sqDist]
  | _ :: _, [] => by simp [sqDist]
  | a :: p, b :: q => by
    have hrest := sqDist_nonneg p q
    have hsq : (0 : ℚ) ≤ (a - b) ^ 2 := sq_nonneg _
    simp only [sqDist, List.zipWith_cons_cons, List.sum_cons] at hrest ⊢
    exact add_nonneg hsq hrest

theorem sqDist_self : ∀ p : Point, sqDist p p = 0
  | [] => by simp [sqDist]
  | a :: p => by
    have := sqDist_self p
    simp only [sqDist, List.zipWith_cons_cons, List.sum_cons] at this ⊢
    simp [this]

theorem sqDist_eq_zero_iff : ∀ (p q : Point), p.length = q.length →
    (sqDist p q = 0 ↔ p = q)
  | [], [] => by simp [sqDist]
  | [], _ :: _ => by simp
  | _ :: _, [] => by simp
  | a :: p, b :: q => by
    intro hlen
    have ih := sqDist_eq_zero_iff p q (by simpa using hlen)
    simp only [sqDist, List.zipWith_cons_cons, List.sum_cons] at ih ⊢
    constructor
    · intro h
      have hsq : (0 : ℚ) ≤ (a - b) ^ 2 := sq_nonneg _
      have hrest : (0 : ℚ) ≤ sqDist p q := sqDist_nonneg p q
      simp only [sqDist] at hrest
      have hz := (add_eq_zero_iff_of_nonneg hsq hrest).mp h
      have hab : a = b := by
        have := pow_eq_zero_iff (n := 2) (by norm_num) |>.mp hz.1
        linarith [sub_eq_zero.mp this]
      rw [hab, ih.mp hz.2]
    · rintro ⟨rfl, rfl⟩
      simp [sqDist_self]

/-! Unrolling the refinement loop of `cluster`. -/

theorem getCentroids_length (d K : Nat) (img : List Point)
    (labels : List Nat) : (getCentroids d K img labels).length = K := by
  simp [getCentroids]

theorem getCentroids_ne_nil (d K : Nat) (img : List Point)
    (labels : List Nat) (hK : 1 ≤ K) : getCentroids d K img labels ≠ [] := by
  apply List.ne_nil_of_length_pos
  rw [getCentroids_length]
  omega

theorem clusterLoop_eq_iterate (d K : Nat) (img : List Point) (hK : 1 ≤ K) :
    ∀ (t : Nat) (c : List (Option Point)) (l : Option (List Nat)),
      c ≠ [] →
      clusterLoop d K img (t + 1) c l =
        .ok ((kmRound d K img)^[t + 1] c,
             some (assignTotal img ((kmRound d K img)^[t] c))) := by
  intro t
  induction t with
  | zero =>
    intro c l hc
    have hg := getNearestMeans_eq_some img c hc
    have step : clusterLoop d K img (0 + 1) c l =
        clusterLoop d K img 0 (getCentroids d K img (assignTotal img c))
          (some (assignTotal img c)) := by
      conv_lhs => rw [clusterLoop]
      rw [hg]
    rw [step, clusterLoop]
    simp [kmRound]
  | succ t ih =>
    intro c l hc
    have hg := getNearestMeans_eq_some img c hc
    have hne : getCentroids d K img (assignTotal img c) ≠ [] :=
      getCentroids_ne_nil d K img _ hK
    have step : clusterLoop d K img (t + 1 + 1) c l =
        clusterLoop d K img (t + 1) (getCentroids d K img (assignTotal img c))
          (some (assignTotal img c)) := by
      conv_lhs => rw [clusterLoop]
      rw [hg]
    rw [step, ih (getCentroids d K img (assignTotal img c))
      (some (assignTotal img c)) hne]
    show Except.ok ((kmRound d K img)^[t + 1] (kmRound d K img c),
        some (assignTotal img ((kmRound d K img)^[t] (kmRound d K img c)))) =
      Except.ok ((kmRound d K img)^[t + 1 + 1] c,
        some (assignTotal img ((kmRound d K img)^[t + 1] c)))
    rw [← Function.iterate_succ_apply (kmRound d K img) (t + 1) c,
      ← Function.iterate_succ_apply (kmRound d K img) t c]

/-- C1: for every point set, every valid `K` (`1 ≤ K ≤ n`, the index draw
honouring the `np.random.choice` contract) and every `iterations ≥ 1`,
`cluster` performs exactly `iterations` rounds of Assign followed by
Recompute, feeding each round's newly recomputed centroids into the next
round's Assign; the returned centroids are those of the final Recompute
(`iterations` rounds), while the returned assignment is the one produced
by the last Assign call, i.e. it corresponds to the centroids of the
second-to-last round (`iterations - 1` rounds). -/
theorem cluster_run_structure (d : Nat) (img : List Point) (K iters : Int)
    (draw : List Nat) (hK1 : 1 ≤ K) (hKn : K ≤ (img.length : Int))
    (hit : 1 ≤ iters) (hdl : draw.length = K.toNat) :
    cluster d img K iters draw =
      .ok ⟨roundCentroids d img K draw iters.toNat,
           assignTotal img (roundCentroids d img K draw (iters.toNat - 1)),
           reconstruct (roundCentroids d img K draw iters.toNat)
             (assignTotal img
               (roundCentroids d img K draw (iters.toNat - 1)))⟩ := by
  have hinit : initMeans img K draw =
      .ok (draw.map (fun i => some (img.getD i []))) := by
    unfold initMeans npChoiceNoReplace
    rw [if_neg (by omega)]
    rfl
  have hKt : 1 ≤ K.toNat := by omega
  have hc0 : draw.map (fun i => some (img.getD i [])) ≠ [] := by
    apply List.ne_nil_of_length_pos
    rw [List.length_map, hdl]
    omega
  obtain ⟨t, ht⟩ : ∃ t, iters.toNat = t + 1 := ⟨iters.toNat - 1, by omega⟩
  have step1 : cluster d img K iters draw =
      match clusterLoop d K.toNat img iters.toNat
          (draw.map (fun i => some (img.getD i []))) none with
      | .error e => .error e
      | .ok (_, none) => .error .unboundLocalLabels
      | .ok (centroids, some labels) =>
        .ok ⟨centroids, labels, reconstruct centroids labels⟩ := by
    unfold cluster
    rw [hinit]
  rw [step1, ht,
    clusterLoop_eq_iterate d K.toNat img hKt t _ none hc0]
  simp only [roundCentroids, Nat.add_sub_cancel]

/-- Witness for C1 at a concrete input: two points, one cluster, two
iterations. -/
theorem cluster_run_structure_witness :
    (1 : Int) ≤ 1 ∧ (1 : Int) ≤ 2 ∧
    cluster 1 [[(0 : ℚ)], [(2 : ℚ)]] 1 2 [0] =
      .ok ⟨roundCentroids 1 [[(0 : ℚ)], [(2 : ℚ)]] 1 [0] 2,
           assignTotal [[(0 : ℚ)], [(2 : ℚ)]]
             (roundCentroids 1 [[(0 : ℚ)], [(2 : ℚ)]] 1 [0] 1),
           reconstruct (roundCentroids 1 [[(0 : ℚ)], [(2 : ℚ)]] 1 [0] 2)
             (assignTotal [[(0 : ℚ)], [(2 : ℚ)]]
               (roundCentroids 1 [[(0 : ℚ)], [(2 : ℚ)]] 1 [0] 1))⟩ :=
  ⟨by decide, by decide,
    cluster_run_structure 1 [[(0 : ℚ)], [(2 : ℚ)]] 1 2 [0]
      (by decide) (by decide) (by decide) (by decide)⟩

/-- C2 (amended): there is no upfront argument validation. If `K < 0` or
`K > n` the run fails inside `_init_means` (`ValueError` from
`np.random.choice`) before any Assign or Recompute round. If `K = 0` with
at least one point and `iterations ≥ 1`, the failure is the `ValueError`
`np.argmin` raises on an empty distance list, inside the first Assign
round — a round is attempted. If `0 ≤ K ≤ n` and `iterations < 1`, no
round runs and the failure surfaces only after the loop, as the
`UnboundLocalError` on `labels` at reconstruction, with the
initialisation already performed. -/
theorem cluster_invalid_args (d : Nat) (img : List Point) (K iters : Int)
    (draw : List Nat) :
    ((K < 0 ∨ (img.length : Int) < K) →
      cluster d img K iters draw = .error .choiceValueError ∧
      numAssignStarts d img K iters draw = 0) ∧
    (K = 0 → img ≠ [] → 1 ≤ iters → draw.length = K.toNat →
      cluster d img K iters draw = .error .argminValueError ∧
      numAssignStarts d img K iters draw = 1) ∧
    (0 ≤ K → K ≤ (img.length : Int) → iters < 1 →
      cluster d img K iters draw = .error .unboundLocalLabels ∧
      numAssignStarts d img K iters draw = 0) := by
  refine ⟨fun hbad => ?_, fun hK0 hne hit hdl => ?_, fun hK0 hKn hit => ?_⟩
  · have hinit : initMeans img K draw = .error .choiceValueError := by
      unfold initMeans npChoiceNoReplace
      rw [if_pos hbad]
      rfl
    constructor
    · unfold cluster
      rw [hinit]
    · unfold numAssignStarts
      rw [hinit]
  · subst hK0
    have hdnil : draw = [] := List.length_eq_zero.mp (by simpa using hdl)
    subst hdnil
    have hinit : initMeans img 0 [] = .ok [] := by
      unfold initMeans npChoiceNoReplace
      rw [if_neg (by omega)]
      rfl
    obtain ⟨p, ps, rfl⟩ := List.exists_cons_of_ne_nil hne
    have hg : getNearestMeans (p :: ps) ([] : List (Option Point)) = none := by
      rfl
    obtain ⟨t, ht⟩ : ∃ t, iters.toNat = t + 1 := ⟨iters.toNat - 1, by omega⟩
    constructor
    · have hloop : clusterLoop d 0 (p :: ps) (t + 1) [] none =
          .error .argminValueError := by
        conv_lhs => rw [clusterLoop]
        rw [hg]
      simp only [cluster, hinit, Int.toNat_zero, ht, hloop]
    · have hloop : numAssignStartsLoop d 0 (p :: ps) (t + 1) [] = 1 := by
        conv_lhs => rw [numAssignStartsLoop]
        rw [hg]
      simp only [numAssignStarts, hinit, Int.toNat_zero, ht, hloop]
  · have hinit : initMeans img K draw =
        .ok (draw.map (fun i => some (img.getD i []))) := by
      unfold initMeans npChoiceNoReplace
      rw [if_neg (by omega)]
      rfl
    have ht : iters.toNat = 0 := by omega
    constructor
    · simp only [cluster, hinit, ht, clusterLoop]
    · simp only [numAssignStarts, hinit, ht, numAssignStartsLoop]

/-- C2 counterexample: the claim formalised — on any invalid input the
run errors with no Assign round attempted — is false: with one point,
`K = 0` and one iteration, the error is raised from inside the first
Assign round (`numAssignStarts` is 1, and the error is the argmin
`ValueError`, not an upfront argument check). -/
theorem cluster_invalid_args_cex :
    ¬ (∀ (d : Nat) (img : List Point) (K iters : Int) (draw : List Nat),
        (K ≤ 0 ∨ (img.length : Int) < K ∨ iters < 1) →
        (∃ e, cluster d img K iters draw = .error e) ∧
        numAssignStarts d img K iters draw = 0) := by
  intro h
  have h1 := (h 1 [[(0 : ℚ)]] 0 1 [] (Or.inl le_rfl)).2
  have h2 : numAssignStarts 1 [[(0 : ℚ)]] 0 1 [] = 1 := by decide
  rw [h2] at h1
  cases h1

/-- Witness for the amended C2: a negative `K` fails in initialisation
with no Assign round attempted. -/
theorem cluster_invalid_args_witness :
    cluster 1 [[(0 : ℚ)]] (-1) 1 [] = .error .choiceValueError ∧
    numAssignStarts 1 [[(0 : ℚ)]] (-1) 1 [] = 0 :=
  (cluster_invalid_args 1 [[(0 : ℚ)]] (-1) 1 []).1 (Or.inl (by decide))

/-- C3: for every point set and every nonempty centroid set, Assign
succeeds and returns one label per point; the label of point `i` is the
index of a centroid at minimum Euclidean distance from it, and every
centroid of strictly smaller index is at strictly greater Euclidean
distance (ties broken by the lowest index, the first minimum
encountered). -/
theorem getNearestMeans_nearest (img : List Point) (C : List Point)
    (hC : C ≠ []) :
    ∃ ls, getNearestMeans img (C.map (fun c => some c)) = some ls ∧
      ls.length = img.length ∧
      ∀ i, i < img.length →
        ls.getD i 0 < C.length ∧
        (∀ k, k < C.length →
          Real.sqrt (sqDist (img.getD i []) (C.getD (ls.getD i 0) []) : ℝ) ≤
            Real.sqrt (sqDist (img.getD i []) (C.getD k []) : ℝ)) ∧
        (∀ k, k < ls.getD i 0 →
          Real.sqrt (sqDist (img.getD i []) (C.getD (ls.getD i 0) []) : ℝ) <
            Real.sqrt (sqDist (img.getD i []) (C.getD k []) : ℝ)) := by
  have hmne : C.map (fun c => some c) ≠ [] := by simpa using hC
  refine ⟨assignTotal img (C.map (fun c => some c)),
    getNearestMeans_eq_some img _ hmne, assignTotal_length _ _, ?_⟩
  intro i hi
  set p := img.getD i [] with hp
  have hD := assignTotal_getD img (C.map (fun c => some c)) i hi
  have hmm : (C.map (fun c => some c)).map (fun m => distTo p m) =
      C.map (fun c => some (sqDist p c)) := by
    rw [List.map_map]
    rfl
  rw [hmm, npArgmin_map_some (fun c => sqDist p c) C] at hD
  obtain ⟨j, hj⟩ : ∃ j, argminQ (C.map (fun c => sqDist p c)) = some j := by
    cases hq : argminQ (C.map (fun c => sqDist p c)) with
    | none => exact absurd ((argminQ_eq_none_iff _).mp hq) (by simpa using hC)
    | some j => exact ⟨j, rfl⟩
  rw [hj] at hD
  simp only [Option.getD_some] at hD
  have hjlen : j < C.length := by simpa using argminQ_lt_length hj
  have hgetd : ∀ k, k < C.length →
      (C.map (fun c => sqDist p c)).getD k 0 = sqDist p (C.getD k []) := by
    intro k hk
    rw [List.getD_eq_getElem _ _ (by simpa using hk), List.getElem_map,
      List.getD_eq_getElem _ _ hk]
  rw [hD]
  refine ⟨hjlen, ?_, ?_⟩
  · intro k hk
    have hle := argminQ_le hj k (by simpa using hk)
    rw [hgetd j hjlen, hgetd k hk] at hle
    rw [Real.sqrt_le_sqrt_iff
      (by exact_mod_cast sqDist_nonneg p (C.getD k []))]
    exact_mod_cast hle
  · intro k hkj
    have hk : k < C.length := lt_trans hkj hjlen
    have hlt := argminQ_first hj k hkj
    rw [hgetd j hjlen, hgetd k hk] at hlt
    rw [Real.sqrt_lt_sqrt_iff
      (by exact_mod_cast sqDist_nonneg p (C.getD j []))]
    exact_mod_cast hlt

/-- Witness for C3: one point and two centroids, the second at distance
zero. -/
theorem getNearestMeans_nearest_witness :
    ([[(1 : ℚ)], [(0 : ℚ)]] : List Point) ≠ [] ∧
    (∃ ls, getNearestMeans [[(0 : ℚ)]]
        (([[(1 : ℚ)], [(0 : ℚ)]] : List Point).map (fun c => some c)) =
          some ls ∧
      ls.length = ([[(0 : ℚ)]] : List Point).length ∧
      ∀ i, i < ([[(0 : ℚ)]] : List Point).length →
        ls.getD i 0 < ([[(1 : ℚ)], [(0 : ℚ)]] : List Point).length ∧
        (∀ k, k < ([[(1 : ℚ)], [(0 : ℚ)]] : List Point).length →
          Real.sqrt (sqDist (([[(0 : ℚ)]] : List Point).getD i [])
              (([[(1 : ℚ)], [(0 : ℚ)]] : List Point).getD (ls.getD i 0) []) : ℝ) ≤
            Real.sqrt (sqDist (([[(0 : ℚ)]] : List Point).getD i [])
              (([[(1 : ℚ)], [(0 : ℚ)]] : List Point).getD k []) : ℝ)) ∧
        (∀ k, k < ls.getD i 0 →
          Real.sqrt (sqDist (([[(0 : ℚ)]] : List Point).getD i [])
              (([[(1 : ℚ)], [(0 : ℚ)]] : List Point).getD (ls.getD i 0) []) : ℝ) <
            Real.sqrt (sqDist (([[(0 : ℚ)]] : List Point).getD i [])
              (([[(1 : ℚ)], [(0 : ℚ)]] : List Point).getD k []) : ℝ))) :=
  ⟨by decide, getNearestMeans_nearest [[(0 : ℚ)]] [[(1 : ℚ)], [(0 : ℚ)]]
    (by decide)⟩

/-- C5: every label Assign produces is a valid centroid index, i.e. lies
in the half-open interval `[0, K)` where `K` is the number of
centroids. -/
theorem assignment_values_lt_K (img : List Point)
    (means : List (Option Point)) (K : Nat) (hK : means.length = K)
    (ls : List Nat) (h : getNearestMeans img means = some ls) :
    ∀ a ∈ ls, a < K := by
  subst hK
  induction img generalizing ls with
  | nil =>
    rw [getNearestMeans] at h
    cases h
    simp
  | cons p ps ih =>
    cases hn : npArgmin (means.map (fun m => distTo p m)) with
    | none =>
      rw [getNearestMeans, hn] at h
      cases h
    | some j =>
      cases hr : getNearestMeans ps means with
      | none =>
        rw [getNearestMeans, hn, hr] at h
        cases h
      | some ls' =>
        rw [getNearestMeans, hn, hr] at h
        cases h
        intro a ha
        rcases List.mem_cons.mp ha with rfl | ha'
        · simpa using npArgmin_lt_length hn
        · exact ih ls' hr a ha'

/-- Witness for C5 at a concrete input. -/
theorem assignment_values_lt_K_witness :
    getNearestMeans [[(0 : ℚ)]] [some [(1 : ℚ)], some [(0 : ℚ)]] =
      some [1] ∧ ∀ a ∈ [1], a < 2 := by
  have hg : getNearestMeans [[(0 : ℚ)]] [some [(1 : ℚ)], some [(0 : ℚ)]] =
      some [1] := by
    norm_num [getNearestMeans, npArgmin, distTo, sqDist, argminQ]
  exact ⟨hg, assignment_values_lt_K [[(0 : ℚ)]]
    [some [(1 : ℚ)], some [(0 : ℚ)]] 2 rfl [1] hg⟩

/-- C4: Recompute returns one row per cluster index `k < K`; the row is
the coordinatewise arithmetic mean of the points whose assignment equals
`k` (its `j`-th coordinate times the cluster size equals the sum of the
members' `j`-th coordinates), and when no point is assigned to `k` the
row is the NaN vector (`none`), which propagates instead of raising. -/
theorem getCentroids_mean (d K : Nat) (img : List Point)
    (labels : List Nat) :
    (getCentroids d K img labels).length = K ∧
    ∀ k, k < K →
      (maskSelect img labels k = [] →
        (getCentroids d K img labels).getD k none = none) ∧
      (maskSelect img labels k ≠ [] →
        ∃ v, (getCentroids d K img labels).getD k none = some v ∧
          v.length = d ∧
          ∀ j, j < d →
            v.getD j 0 * ((maskSelect img labels k).length : ℚ) =
              ((maskSelect img labels k).map (fun p => p.getD j 0)).sum) := by
  refine ⟨getCentroids_length d K img labels, fun k hk => ?_⟩
  have h1 : k < (getCentroids d K img labels).length := by
    rw [getCentroids_length]
    exact hk
  have hrow : (getCentroids d K img labels).getD k none =
      npMean d (maskSelect img labels k) := by
    rw [List.getD_eq_getElem _ none h1]
    simp [getCentroids]
  constructor
  · intro hempty
    rw [hrow]
    unfold npMean
    rw [if_pos hempty]
  · intro hne
    rw [hrow]
    unfold npMean
    rw [if_neg hne]
    refine ⟨_, rfl, by simp, ?_⟩
    intro j hj
    have hget : ((List.range d).map
        (fun j => ((maskSelect img labels k).map (fun p => p.getD j 0)).sum /
          ((maskSelect img labels k).length : ℚ))).getD j 0 =
        ((maskSelect img labels k).map (fun p => p.getD j 0)).sum /
          ((maskSelect img labels k).length : ℚ) := by
      rw [List.getD_eq_getElem _ _ (by simpa using hj), List.getElem_map,
        List.getElem_range]
    rw [hget, div_mul_cancel₀]
    have hpos : 0 < (maskSelect img labels k).length :=
      List.length_pos.mpr hne
    exact_mod_cast Nat.pos_iff_ne_zero.mp hpos

/-- Witness for C4: two points both assigned to the single cluster. -/
theorem getCentroids_mean_witness :
    (getCentroids 1 1 [[(1 : ℚ)], [(3 : ℚ)]] [0, 0]).length = 1 ∧
    (maskSelect [[(1 : ℚ)], [(3 : ℚ)]] [0, 0] 0 ≠ [] →
      ∃ v, (getCentroids 1 1 [[(1 : ℚ)], [(3 : ℚ)]] [0, 0]).getD 0 none =
          some v ∧
        v.length = 1 ∧
        ∀ j, j < 1 →
          v.getD j 0 * ((maskSelect [[(1 : ℚ)], [(3 : ℚ)]] [0, 0] 0).length : ℚ) =
            ((maskSelect [[(1 : ℚ)], [(3 : ℚ)]] [0, 0] 0).map
              (fun p => p.getD j 0)).sum) :=
  ⟨(getCentroids_mean 1 1 [[(1 : ℚ)], [(3 : ℚ)]] [0, 0]).1,
   ((getCentroids_mean 1 1 [[(1 : ℚ)], [(3 : ℚ)]] [0, 0]).2 0
     (by decide)).2⟩

/-- C6: `_init_means` fails when `K > n`, for any draw (the `ValueError`
of `np.random.choice` precedes any use of the drawn indices); and when
`0 ≤ K ≤ n`, under the `np.random.choice` contract for the draw (length
`K`, no duplicates, indices in range — fixing the ambient random state
fixes this draw) it returns the points of `P` at `K` distinct indices:
every initial centroid is a point of `P` and no point index is chosen
twice. -/
theorem initMeans_spec (img : List Point) (K : Int) (draw : List Nat) :
    (((img.length : Int) < K) →
      initMeans img K draw = .error .choiceValueError) ∧
    (0 ≤ K → K ≤ (img.length : Int) →
      draw.length = K.toNat → draw.Nodup →
      (∀ t ∈ draw, t < img.length) →
      ∃ idxs : List Nat, initMeans img K draw =
          .ok (idxs.map (fun t => some (img.getD t []))) ∧
        idxs.length = K.toNat ∧ idxs.Nodup ∧
        (∀ t ∈ idxs, t < img.length) ∧
        ∀ t ∈ idxs, img.getD t [] ∈ img) := by
  constructor
  · intro hgt
    unfold initMeans npChoiceNoReplace
    rw [if_pos (Or.inr hgt)]
    rfl
  · intro h0 hle hdl hnd hdm
    refine ⟨draw, ?_, hdl, hnd, hdm, ?_⟩
    · unfold initMeans npChoiceNoReplace
      rw [if_neg (by omega)]
      rfl
    · intro t ht
      have htl := hdm t ht
      rw [List.getD_eq_getElem _ _ htl]
      exact List.getElem_mem htl

/-- Witness for C6, exercising both branches: asking two centroids from a
single point fails, and drawing both points of a pair in reverse order
succeeds. -/
theorem initMeans_spec_witness :
    ((([[(5 : ℚ)]] : List Point).length : Int) < 2 ∧
     initMeans [[(5 : ℚ)]] 2 [] = .error .choiceValueError) ∧
    (0 ≤ (2 : Int) ∧
     (∃ idxs : List Nat, initMeans [[(5 : ℚ)], [(7 : ℚ)]] 2 [1, 0] =
        .ok (idxs.map (fun t => some (([[(5 : ℚ)], [(7 : ℚ)]] : List Point).getD t []))) ∧
      idxs.length = (2 : Int).toNat ∧ idxs.Nodup ∧
      (∀ t ∈ idxs, t < ([[(5 : ℚ)], [(7 : ℚ)]] : List Point).length) ∧
      ∀ t ∈ idxs, ([[(5 : ℚ)], [(7 : ℚ)]] : List Point).getD t [] ∈
        ([[(5 : ℚ)], [(7 : ℚ)]] : List Point))) :=
  ⟨⟨by decide, (initMeans_spec [[(5 : ℚ)]] 2 []).1 (by decide)⟩,
   ⟨by decide,
    (initMeans_spec [[(5 : ℚ)], [(7 : ℚ)]] 2 [1, 0]).2 (by decide)
      (by decide) (by decide) (by decide) (by decide)⟩⟩

/-- C7: once the random draw of `_init_means` is fixed — which is what
fixing the process-wide random seed does — `cluster` is a pure function
of its inputs: two executions with the same points, `K`, iteration count
and draw return identical centroids, assignment and reconstruction. -/
theorem cluster_deterministic (d : Nat) (img : List Point) (K iters : Int)
    (draw₁ draw₂ : List Nat) (h : draw₁ = draw₂) :
    cluster d img K iters draw₁ = cluster d img K iters draw₂ := by
  rw [h]

/-- Witness for C7 at a concrete input. -/
theorem cluster_deterministic_witness :
    ([0] : List Nat) = [0] ∧
    cluster 1 [[(0 : ℚ)]] 1 1 [0] = cluster 1 [[(0 : ℚ)]] 1 1 [0] :=
  ⟨rfl, cluster_deterministic 1 [[(0 : ℚ)]] 1 1 [0] [0] rfl⟩

/-! The K = 1 boundary case. -/

theorem npArgmin_single (o : Option ℚ) : npArgmin [o] = some 0 := by
  cases o <;> simp [npArgmin, argminQ, List.findIdx_cons]

theorem assignTotal_single : ∀ (img : List Point) (m : Option Point),
    assignTotal img [m] = List.replicate img.length 0
  | [], _ => rfl
  | p :: ps, m => by
    have ih := assignTotal_single ps m
    simp only [assignTotal, List.map_cons, List.map_nil, List.length_cons,
      List.replicate_succ, npArgmin_single, Option.getD_some] at ih ⊢
    rw [ih]

theorem maskSelect_replicate_zero : ∀ img : List Point,
    maskSelect img (List.replicate img.length 0) 0 = img
  | [] => rfl
  | p :: ps => by
    have ih := maskSelect_replicate_zero ps
    simp only [maskSelect, List.length_cons, List.replicate_succ,
      List.zip_cons_cons, List.filter_cons] at ih ⊢
    simp only [beq_self_eq_true, if_true, List.map_cons]
    rw [show (((List.zip ps (List.replicate ps.length 0)).filter
      (fun pl => pl.2 == 0)).map (fun pl => pl.1)) = ps from ih]

theorem kmRound_single (d : Nat) (img : List Point) (m : Option Point) :
    kmRound d 1 img [m] = [npMean d img] := by
  unfold kmRound
  rw [assignTotal_single img m]
  unfold getCentroids
  have hr : List.range 1 = [0] := by decide
  rw [hr, List.map_cons, List.map_nil, maskSelect_replicate_zero img]

theorem roundCentroids_K_one (d : Nat) (img : List Point) (i₀ : Nat) :
    ∀ s, roundCentroids d img 1 [i₀] (s + 1) = [npMean d img] := by
  intro s
  induction s with
  | zero =>
    unfold roundCentroids
    rw [Function.iterate_one]
    simp only [List.map_cons, List.map_nil, Int.toNat_one]
    exact kmRound_single d img _
  | succ s ih =>
    unfold roundCentroids at ih ⊢
    rw [Function.iterate_succ_apply']
    rw [Function.iterate_succ_apply'] at ih ⊢
    rw [ih]
    simp only [Int.toNat_one]
    exact kmRound_single d img _

/-- C8: for a non-empty point set, `K = 1` and at least one iteration,
the returned single centroid is the coordinatewise arithmetic mean of all
the points and the returned assignment is all zeros. -/
theorem cluster_K_one (d : Nat) (img : List Point) (iters : Int)
    (i₀ : Nat) (hn : img ≠ []) (hit : 1 ≤ iters) :
    cluster d img 1 iters [i₀] =
      .ok ⟨[npMean d img], List.replicate img.length 0,
           reconstruct [npMean d img] (List.replicate img.length 0)⟩ := by
  have hKn : (1 : Int) ≤ (img.length : Int) := by
    have := List.length_pos.mpr hn
    omega
  rw [cluster_run_structure d img 1 iters [i₀] le_rfl hKn hit (by simp)]
  obtain ⟨t, ht⟩ : ∃ t, iters.toNat = t + 1 := ⟨iters.toNat - 1, by omega⟩
  have hA : assignTotal img (roundCentroids d img 1 [i₀] t) =
      List.replicate img.length 0 := by
    cases t with
    | zero =>
      unfold roundCentroids
      rw [Function.iterate_zero, id_eq]
      simp only [List.map_cons, List.map_nil]
      exact assignTotal_single img _
    | succ s =>
      rw [roundCentroids_K_one d img i₀ s]
      exact assignTotal_single img _
  rw [ht, Nat.add_sub_cancel, roundCentroids_K_one d img i₀ t, hA]

/-- Witness for C8: the centroid of two points collapses to their mean. -/
theorem cluster_K_one_witness :
    ([[(1 : ℚ)], [(3 : ℚ)]] : List Point) ≠ [] ∧
    cluster 1 [[(1 : ℚ)], [(3 : ℚ)]] 1 1 [0] =
      .ok ⟨[npMean 1 [[(1 : ℚ)], [(3 : ℚ)]]], List.replicate 2 0,
           reconstruct [npMean 1 [[(1 : ℚ)], [(3 : ℚ)]]]
             (List.replicate 2 0)⟩ :=
  ⟨by decide, cluster_K_one 1 [[(1 : ℚ)], [(3 : ℚ)]] 1 0 (by decide)
    (by decide)⟩

/-- C10: whenever `cluster` succeeds, the reconstructed image indexes the
centroid array with the assignment cast to `uint8`: pixel `i` receives
`centroids[labels[i] mod 256]`, and for any pixel whose label is at least
256 (possible only when `K > 256`) the index used differs from the
assigned cluster, so the pixel is mapped to the wrong centroid. -/
theorem cluster_reconstruct_uint8 (d : Nat) (img : List Point)
    (K iters : Int) (draw : List Nat) (r : ClusterResult)
    (h : cluster d img K iters draw = .ok r) :
    r.reconstructed.length = r.labels.length ∧
    ∀ i, i < r.labels.length →
      r.reconstructed.getD i none =
        r.centroids.getD (r.labels.getD i 0 % 256) none ∧
      (256 ≤ r.labels.getD i 0 → r.labels.getD i 0 % 256 ≠ r.labels.getD i 0) := by
  unfold cluster at h
  split at h
  · cases h
  · split at h
    · cases h
    · cases h
    · injection h with h'
      subst h'
      refine ⟨by simp [reconstruct], fun i hi => ⟨?_, fun h256 => ?_⟩⟩
      · simp only [reconstruct]
        rw [List.getD_eq_getElem _ _
            (by simpa [reconstruct] using hi), List.getElem_map,
          List.getD_eq_getElem _ _ hi]
      · omega

/-- Witness for C10: a one-point, one-cluster run. -/
theorem cluster_reconstruct_uint8_witness :
    cluster 1 [[(0 : ℚ)]] 1 1 [0] =
      .ok ⟨[npMean 1 [[(0 : ℚ)]]], List.replicate 1 0,
        reconstruct [npMean 1 [[(0 : ℚ)]]] (List.replicate 1 0)⟩ ∧
    (⟨[npMean 1 [[(0 : ℚ)]]], List.replicate 1 0,
        reconstruct [npMean 1 [[(0 : ℚ)]]]
          (List.replicate 1 0)⟩ : ClusterResult).reconstructed.length =
      (⟨[npMean 1 [[(0 : ℚ)]]], List.replicate 1 0,
        reconstruct [npMean 1 [[(0 : ℚ)]]]
          (List.replicate 1 0)⟩ : ClusterResult).labels.length := by
  have hrun : cluster 1 [[(0 : ℚ)]] 1 1 [0] =
      .ok ⟨[npMean 1 [[(0 : ℚ)]]], List.replicate 1 0,
        reconstruct [npMean 1 [[(0 : ℚ)]]] (List.replicate 1 0)⟩ :=
    cluster_K_one 1 [[(0 : ℚ)]] 1 0 (by decide) (by decide)
  exact ⟨hrun, (cluster_reconstruct_uint8 1 [[(0 : ℚ)]] 1 1 [0] _ hrun).1⟩

/-! The K = n scenario: helper lemmas. -/

theorem range_map_getD (v : List ℚ) :
    (List.range v.length).map (fun j => v.getD j 0) = v := by
  apply List.ext_getElem
  · simp
  · intro n h1 h2
    simp only [List.getElem_map, List.getElem_range]
    exact List.getD_eq_getElem v 0 h2

theorem npMean_const (d : Nat) (v : Point) (ps : List Point) (hne : ps ≠ [])
    (hall : ∀ p ∈ ps, p = v) (hv : v.length = d) : npMean d ps = some v := by
  unfold npMean
  rw [if_neg hne]
  congr 1
  have hmap : ∀ j : Nat, ps.map (fun p => p.getD j 0) =
      List.replicate ps.length (v.getD j 0) := by
    intro j
    rw [List.eq_replicate_iff]
    exact ⟨by simp, by
      intro b hb
      obtain ⟨p, hp, rfl⟩ := List.mem_map.mp hb
      rw [hall p hp]⟩
  have hlen0 : (ps.length : ℚ) ≠ 0 := by
    have := List.length_pos.mpr hne
    exact_mod_cast Nat.pos_iff_ne_zero.mp this
  have hentry : ∀ j ∈ List.range d,
      (ps.map (fun p => p.getD j 0)).sum / (ps.length : ℚ) = v.getD j 0 := by
    intro j _
    rw [hmap j, List.sum_replicate, nsmul_eq_mul, mul_comm,
      mul_div_assoc, div_self hlen0, mul_one]
  calc (List.range d).map
        (fun j => (ps.map (fun p => p.getD j 0)).sum / (ps.length : ℚ))
      = (List.range d).map (fun j => v.getD j 0) :=
        List.map_congr_left hentry
    _ = v := by rw [← hv, range_map_getD]

theorem maskSelect_cons (p : Point) (ps : List Point) (a : Nat)
    (as : List Nat) (k : Nat) :
    maskSelect (p :: ps) (a :: as) k =
      if a = k then p :: maskSelect ps as k else maskSelect ps as k := by
  unfold maskSelect
  rw [List.zip_cons_cons, List.filter_cons]
  by_cases hak : a = k
  · subst hak
    simp
  · simp [hak]

theorem mem_maskSelect_iff : ∀ (img : List Point) (labels : List Nat)
    (k : Nat), labels.length = img.length → ∀ q : Point,
    (q ∈ maskSelect img labels k ↔
      ∃ i, i < img.length ∧ labels.getD i 0 = k ∧ q = img.getD i []) := by
  intro img
  induction img with
  | nil =>
    intro labels k h q
    simp [maskSelect]
  | cons p ps ih =>
    intro labels k h q
    cases labels with
    | nil => simp at h
    | cons a as =>
      have h' : as.length = ps.length := by simpa using h
      rw [maskSelect_cons]
      by_cases hak : a = k
      · rw [if_pos hak]
        constructor
        · intro hq
          rcases List.mem_cons.mp hq with rfl | hq'
          · exact ⟨0, Nat.succ_pos _, by simpa using hak, by simp⟩
          · obtain ⟨i, hi, hl, hqv⟩ := (ih as k h' q).mp hq'
            exact ⟨i + 1, Nat.succ_lt_succ hi, by simpa using hl,
              by simpa using hqv⟩
        · rintro ⟨i, hi, hl, hqv⟩
          cases i with
          | zero =>
            simp only [List.getD_cons_zero] at hqv
            subst hqv
            exact List.mem_cons_self _ _
          | succ i' =>
            refine List.mem_cons_of_mem p ((ih as k h' q).mpr
              ⟨i', Nat.lt_of_succ_lt_succ hi, by simpa using hl,
                by simpa using hqv⟩)
      · rw [if_neg hak]
        rw [ih as k h' q]
        constructor
        · rintro ⟨i, hi, hl, hqv⟩
          exact ⟨i + 1, Nat.succ_lt_succ hi, by simpa using hl,
            by simpa using hqv⟩
        · rintro ⟨i, hi, hl, hqv⟩
          cases i with
          | zero =>
            rw [List.getD_cons_zero] at hl
            exact absurd hl hak
          | succ i' =>
            exact ⟨i', Nat.lt_of_succ_lt_succ hi, by simpa using hl,
              by simpa using hqv⟩

theorem mem_of_draw_perm (draw : List Nat) (n : Nat) (hdl : draw.length = n)
    (hnd : draw.Nodup) (hdm : ∀ t ∈ draw, t < n) :
    ∀ i, i < n → i ∈ draw := by
  intro i hi
  have hsub : draw.toFinset ⊆ Finset.range n := by
    intro x hx
    rw [Finset.mem_range]
    exact hdm x (List.mem_toFinset.mp hx)
  have hcard : (Finset.range n).card ≤ draw.toFinset.card := by
    rw [Finset.card_range, List.toFinset_card_of_nodup hnd, hdl]
  have heq : draw.toFinset = Finset.range n :=
    Finset.eq_of_subset_of_card_le hsub hcard
  rw [← List.mem_toFinset, heq, Finset.mem_range]
  exact hi

theorem label_point_eq (d : Nat) (img : List Point) (draw : List Nat)
    (hlen : ∀ p ∈ img, p.length = d)
    (hdm : ∀ t ∈ draw, t < img.length)
    (hdl : draw.length = img.length) (hnd : draw.Nodup)
    (i : Nat) (hi : i < img.length) :
    (assignTotal img (draw.map (fun t => some (img.getD t [])))).getD i 0 <
      draw.length ∧
    img.getD (draw.getD
        ((assignTotal img
          (draw.map (fun t => some (img.getD t [])))).getD i 0) 0) [] =
      img.getD i [] := by
  set p := img.getD i [] with hp
  have hD := assignTotal_getD img
    (draw.map (fun t => some (img.getD t []))) i hi
  rw [← hp] at hD
  have hmm : (draw.map (fun t => some (img.getD t []))).map
      (fun m => distTo p m) =
      draw.map (fun t => some (sqDist p (img.getD t []))) := by
    rw [List.map_map]
    rfl
  rw [hmm, npArgmin_map_some (fun t => sqDist p (img.getD t [])) draw] at hD
  have hdne : draw.map (fun t => sqDist p (img.getD t [])) ≠ [] := by
    apply List.ne_nil_of_length_pos
    rw [List.length_map, hdl]
    omega
  obtain ⟨j, hj⟩ : ∃ j, argminQ (draw.map
      (fun t => sqDist p (img.getD t []))) = some j := by
    cases hq : argminQ (draw.map (fun t => sqDist p (img.getD t []))) with
    | none => exact absurd ((argminQ_eq_none_iff _).mp hq) hdne
    | some j => exact ⟨j, rfl⟩
  rw [hj] at hD
  simp only [Option.getD_some] at hD
  have hjl : j < draw.length := by simpa using argminQ_lt_length hj
  have hidraw : i ∈ draw := mem_of_draw_perm draw img.length hdl hnd hdm i hi
  obtain ⟨j0, hj0l, hj0⟩ := List.getElem_of_mem hidraw
  have hgetd : ∀ k, k < draw.length →
      (draw.map (fun t => sqDist p (img.getD t []))).getD k 0 =
        sqDist p (img.getD (draw.getD k 0) []) := by
    intro k hk
    rw [List.getD_eq_getElem _ _ (by simpa using hk), List.getElem_map,
      List.getD_eq_getElem _ _ hk]
  have h0 : (draw.map (fun t => sqDist p (img.getD t []))).getD j0 0 = 0 := by
    rw [hgetd j0 hj0l, List.getD_eq_getElem _ _ hj0l, hj0, hp]
    exact sqDist_self p
  have hminle := argminQ_le hj j0 (by simpa using hj0l)
  rw [h0, hgetd j hjl] at hminle
  have hge := sqDist_nonneg p (img.getD (draw.getD j 0) [])
  have hmin0 : sqDist p (img.getD (draw.getD j 0) []) = 0 := le_antisymm
    hminle hge
  have hdj : draw.getD j 0 < img.length := by
    have : draw.getD j 0 ∈ draw := by
      rw [List.getD_eq_getElem _ _ hjl]
      exact List.getElem_mem hjl
    exact hdm _ this
  have hpl : p.length = d := by
    rw [hp, List.getD_eq_getElem _ _ hi]
    exact hlen _ (List.getElem_mem hi)
  have hcl : (img.getD (draw.getD j 0) []).length = d := by
    rw [List.getD_eq_getElem _ _ hdj]
    exact hlen _ (List.getElem_mem hdj)
  have heq := (sqDist_eq_zero_iff p (img.getD (draw.getD j 0) [])
    (by rw [hpl, hcl])).mp hmin0
  rw [hD]
  exact ⟨hjl, heq.symm⟩

/-- C9: when `K` equals the number of points and the draw is (as
`np.random.choice` guarantees for `K = n`) a permutation of the point
indices, after one iteration every point becomes its own centroid: the
returned assignment binds each point to a cluster whose returned centroid
equals that point itself. -/
theorem cluster_K_eq_n (d : Nat) (img : List Point) (draw : List Nat)
    (hn : img ≠ []) (hdl : draw.length = img.length) (hnd : draw.Nodup)
    (hdm : ∀ t ∈ draw, t < img.length) (hlen : ∀ p ∈ img, p.length = d) :
    ∃ r : ClusterResult, cluster d img (img.length : Int) 1 draw = .ok r ∧
      r.labels.length = img.length ∧
      ∀ i, i < img.length →
        r.labels.getD i 0 < img.length ∧
        r.centroids.getD (r.labels.getD i 0) none = some (img.getD i []) := by
  have hn1 : 0 < img.length := List.length_pos.mpr hn
  have htn : ((img.length : Int)).toNat = img.length := Int.toNat_natCast _
  have hrun := cluster_run_structure d img (img.length : Int) 1 draw
    (by exact_mod_cast hn1) le_rfl le_rfl (by rw [hdl, htn])
  refine ⟨_, hrun, ?_, ?_⟩
  · exact assignTotal_length img _
  · intro i hi
    have h10 : (1 : Int).toNat - 1 = 0 := by decide
    have hr0 : roundCentroids d img (img.length : Int) draw 0 =
        draw.map (fun t => some (img.getD t [])) := by
      unfold roundCentroids
      rw [Function.iterate_zero, id_eq]
    have hr1 : roundCentroids d img (img.length : Int) draw (1 : Int).toNat =
        getCentroids d img.length img
          (assignTotal img (draw.map (fun t => some (img.getD t [])))) := by
      unfold roundCentroids
      rw [Int.toNat_one, Function.iterate_one]
      unfold kmRound
      rw [htn]
    dsimp only
    rw [h10, hr0, hr1]
    set L := assignTotal img (draw.map (fun t => some (img.getD t [])))
      with hL
    obtain ⟨hjl, heq⟩ := label_point_eq d img draw hlen hdm hdl hnd i hi
    rw [← hL] at hjl heq
    constructor
    · rw [← hdl]
      exact hjl
    · have hjn : L.getD i 0 < img.length := by
        rw [← hdl]
        exact hjl
      have hrow : (getCentroids d img.length img L).getD (L.getD i 0) none =
          npMean d (maskSelect img L (L.getD i 0)) := by
        rw [List.getD_eq_getElem _ none
          (by rw [getCentroids_length]; exact hjn)]
        simp [getCentroids]
      have hLl : L.length = img.length := assignTotal_length img _
      have hmem : img.getD i [] ∈ maskSelect img L (L.getD i 0) :=
        (mem_maskSelect_iff img L (L.getD i 0) hLl _).mpr ⟨i, hi, rfl, rfl⟩
      have hall : ∀ q ∈ maskSelect img L (L.getD i 0), q = img.getD i [] := by
        intro q hq
        obtain ⟨i', hi', hl', hq'⟩ :=
          (mem_maskSelect_iff img L (L.getD i 0) hLl q).mp hq
        obtain ⟨hjl', heq'⟩ := label_point_eq d img draw hlen hdm hdl hnd i' hi'
        rw [← hL] at hjl' heq'
        rw [hl'] at heq'
        rw [hq', ← heq', heq]
      have hne2 : maskSelect img L (L.getD i 0) ≠ [] := by
        intro h0
        rw [h0] at hmem
        simp at hmem
      have hplen : (img.getD i []).length = d := by
        rw [List.getD_eq_getElem _ _ hi]
        exact hlen _ (List.getElem_mem hi)
      rw [hrow, npMean_const d (img.getD i [])
        (maskSelect img L (L.getD i 0)) hne2 hall hplen]

/-- Witness for C9: two distinct points, the draw reversing them. -/
theorem cluster_K_eq_n_witness :
    ([[(0 : ℚ)], [(1 : ℚ)]] : List Point) ≠ [] ∧
    (∃ r : ClusterResult,
      cluster 1 [[(0 : ℚ)], [(1 : ℚ)]]
        (([[(0 : ℚ)], [(1 : ℚ)]] : List Point).length : Int) 1 [1, 0] =
          .ok r ∧
      r.labels.length = ([[(0 : ℚ)], [(1 : ℚ)]] : List Point).length ∧
      ∀ i, i < ([[(0 : ℚ)], [(1 : ℚ)]] : List Point).length →
        r.labels.getD i 0 < ([[(0 : ℚ)], [(1 : ℚ)]] : List Point).length ∧
        r.centroids.getD (r.labels.getD i 0) none =
          some (([[(0 : ℚ)], [(1 : ℚ)]] : List Point).getD i [])) :=
  ⟨by decide, cluster_K_eq_n 1 [[(0 : ℚ)], [(1 : ℚ)]] [1, 0] (by decide)
    (by decide) (by decide) (by decide) (by decide)⟩
